import Mathlib

/-!
Shallow embedding of the order sequence allocation and notification pipeline
of the TheCrookedFence Firebase functions (`functions/index.js`) together with
the client-side order submission poller.

JavaScript values are modelled as follows: strings are `String` (the missing /
`undefined` / `null` cases of an optional string field are `Option String`,
where the JS truthiness test `if (s)` is `jsTruthy`); numeric record fields are
`Option ℚ` where `none` stands for a missing or non-finite value (`toNumber`
maps those to `0`, as `Number.isFinite` fails on them); the integer order
numbers produced by the counter are `Nat` (JS numbers are exact on this range).
Firestore's `orderBy` on a string field orders by UTF-8 byte sequence, which on
the code points involved is exactly lexicographic code-point order (`strLexLt`).
-/

namespace CrookedFence

/-! ### Small JS helpers -/

/-- Truthiness of an optional JS string: `undefined`, `null` and `""` are falsy. -/
def jsTruthy : Option String → Bool
  | none => false
  | some s => s ≠ ""

/-- The whitespace characters matched by the JS `\s` class (ASCII fragment). -/
def jsIsWhitespace (c : Char) : Bool :=
  c = ' ' || c = '\t' || c = '\n' || c = '\r' || c = '\x0b' || c = '\x0c'

/-- JS `String.prototype.trim` (ASCII fragment). -/
def jsTrim (s : String) : String :=
  String.mk (((s.data.dropWhile jsIsWhitespace).reverse.dropWhile jsIsWhitespace).reverse)

/-- ASCII case folding of a character, as done by `toLowerCase` on these inputs. -/
def asciiLower (c : Char) : Char :=
  if 65 ≤ c.toNat ∧ c.toNat ≤ 90 then Char.ofNat (c.toNat + 32) else c

/-- JS `String.prototype.toLowerCase` (ASCII fragment). -/
def jsToLower (s : String) : String := String.mk (s.data.map asciiLower)

/-- `index.js` `toNumber`: `Number(value)` when finite, else `0`.  A `none`
input stands for a missing, `NaN` or infinite raw value. -/
def toNumber (v : Option ℚ) : ℚ := v.getD 0

/-! ### Order number parsing and formatting (`parseOrderNumber`, `formatOrderNumber`) -/

/-- Is `c` one of the characters `'0'`..`'9'` (the JS `\d` class)? -/
def isDigitChar (c : Char) : Bool := 48 ≤ c.toNat && c.toNat ≤ 57

/-- The decimal digit character for `d < 10`. -/
def digitChar : Nat → Char
  | 0 => '0' | 1 => '1' | 2 => '2' | 3 => '3' | 4 => '4'
  | 5 => '5' | 6 => '6' | 7 => '7' | 8 => '8' | 9 => '9'
  | _ => '*'

/-- Value of a list of decimal digit characters, most significant first:
the JS `Number` applied to the matched digit run. -/
def natOfDigitChars (cs : List Char) : Nat :=
  cs.foldl (fun n c => 10 * n + (c.toNat - 48)) 0

/-- The first maximal run of decimal digits in a character list: the capture of
the JS regex `/(\d+)/`, `none` when the regex does not match. -/
def firstDigitRun : List Char → Option (List Char)
  | [] => none
  | c :: rest =>
    if isDigitChar c then some (c :: rest.takeWhile isDigitChar)
    else firstDigitRun rest

/-- `index.js` `parseOrderNumber`: `0` for a falsy value, else the number
extracted by `/(\d+)/` from the string, `0` when there is no digit. -/
def parseOrderNumber (s : String) : Nat :=
  if s = "" then 0
  else
    match firstDigitRun s.data with
    | some run => natOfDigitChars run
    | none => 0

/-- Little-endian decimal digits of `n`, with explicit fuel (the fuel `n` is
always enough); agrees with `Nat.digits 10 n`. -/
def decimalDigitsAux : Nat → Nat → List Nat
  | 0, _ => []
  | fuel + 1, n => if n = 0 then [] else n % 10 :: decimalDigitsAux fuel (n / 10)

/-- Little-endian decimal digits of `n`. -/
def decimalDigits (n : Nat) : List Nat := decimalDigitsAux n n

/-- The decimal rendering of a natural number: JS `String(value)` on an
(exact) integer. -/
def decimalString (n : Nat) : String :=
  if n = 0 then "0" else String.mk ((decimalDigits n).reverse.map digitChar)

/-- JS `String.prototype.padStart(w, c)`. -/
def padStart (s : String) (w : Nat) (c : Char) : String :=
  String.mk (List.replicate (w - s.length) c ++ s.data)

/-- `index.js` `ORDER_NUMBER_PAD`. -/
def ORDER_NUMBER_PAD : Nat := 4

/-- `index.js` `formatOrderNumber`. -/
def formatOrderNumber (n : Nat) : String :=
  "#" ++ padStart (decimalString n) ORDER_NUMBER_PAD '0'

/-! ### Recipient resolver (`getAdminRecipients`) -/

/-- `index.js` `ADMIN_EMAIL_EXCLUSIONS`. -/
def ADMIN_EMAIL_EXCLUSIONS : List String :=
  ["bradsgbaker14@gmail.com", "admin@thecrookedfence.co.za"]

/-- `index.js` `ADMIN_EMAIL_FALLBACKS`. -/
def ADMIN_EMAIL_FALLBACKS : List String := ["stolschristopher60@gmail.com"]

/-- A separator character of the JS regex class `[;,\s]`. -/
def isSepChar (c : Char) : Bool := c = ';' || c = ',' || jsIsWhitespace c

/-- Worker for `jsSplitSeps`: `cur` is the (reversed) token being built and
`lastSep` records whether the previous character belonged to a separator run. -/
def jsSplitSepsAux : List Char → List Char → Bool → List String
  | [], cur, _ => [String.mk cur.reverse]
  | c :: rest, cur, lastSep =>
    if isSepChar c then
      if lastSep then jsSplitSepsAux rest cur true
      else String.mk cur.reverse :: jsSplitSepsAux rest [] true
    else jsSplitSepsAux rest (c :: cur) false

/-- JS `String.prototype.split(/[;,\s]+/)`: split on maximal separator runs,
keeping the empty tokens a leading or trailing run produces. -/
def jsSplitSeps (s : String) : List String := jsSplitSepsAux s.data [] false

/-- The filter predicate of `getAdminRecipients`: keep a truthy address whose
lowercase form is not excluded. -/
def adminFilter (exclusions : List String) (address : String) : Bool :=
  address ≠ "" && !(exclusions.contains (jsToLower address))

/-- `index.js` `getAdminRecipients`, generalised over the configured raw
address string, the exclusion set (stored lowercase, as in the source constant)
and the fallback list. -/
def getAdminRecipients (raw : String) (exclusions fallback : List String) : List String :=
  if raw = "" then []
  else
    let recipients := ((jsSplitSeps raw).map jsTrim).filter (adminFilter exclusions)
    if recipients.length > 0 then recipients else fallback

/-! ### Delivery client (`sendEmail`) -/

/-- Outcome of `index.js` `sendEmail`.  `configError` is the thrown
`failed-precondition` `HttpsError` for a missing Resend API key; `skipped` is
the `return null` taken when no truthy recipient remains; `sent rs` records the
single transport call with the filtered recipient list `rs`. -/
inductive SendResult
  | configError
  | skipped
  | sent (recipients : List String)
deriving DecidableEq, Repr

/-- `index.js` `sendEmail`.  `apiKey` models `RESEND_API_KEY` (a `none` or
empty value leaves `getResendClient` without a client); the message contents do
not influence the control flow and are elided. -/
def sendEmail (apiKey : Option String) (dest : List String) : SendResult :=
  if jsTruthy apiKey then
    let filtered := dest.filter (fun r => r ≠ "")
    if filtered.length = 0 then .skipped else .sent filtered
  else .configError

/-! ### Sequence allocator (`assignOrderNumber`, `ensureOrderNumber`) -/

/-- Lexicographic (code point, hence UTF-8 byte) strict order on character
lists: the order Firestore uses for string field values. -/
def strLexLt : List Char → List Char → Bool
  | [], [] => false
  | [], _ :: _ => true
  | _ :: _, [] => false
  | a :: as, b :: bs =>
    if a.toNat < b.toNat then true
    else if b.toNat < a.toNat then false
    else strLexLt as bs

/-- The serialized state of one order stream: the `orderCounters` document for
the stream (`none` when it does not exist, else its `lastNumber`) and the
`orderNumber` strings of the stream's records that carry one (records without
the field are invisible to the `orderBy("orderNumber")` bootstrap query). -/
structure StreamState where
  counter : Option Nat
  orderNumbers : List String
deriving DecidableEq, Repr

/-- A stream with no counter document and no records. -/
def emptyStream : StreamState := ⟨none, []⟩

/-- The `orderNumber` returned by the bootstrap query
`orderBy("orderNumber", "desc").limit(1)`: the lexicographically greatest
stored string, `none` on an empty stream. -/
def latestOrderNumber : List String → Option String
  | [] => none
  | s :: rest => some (rest.foldl (fun acc t => if strLexLt acc.data t.data then t else acc) s)

/-- The `lastNumber` the transaction derives when the counter document is
absent: `parseOrderNumber` of the bootstrap query result, `0` for an empty
stream. -/
def bootstrapLastNumber (records : List String) : Nat :=
  match latestOrderNumber records with
  | none => 0
  | some s => parseOrderNumber s

/-- The `lastNumber` read inside the transaction of `assignOrderNumber`. -/
def txLastNumber (st : StreamState) : Nat :=
  match st.counter with
  | some n => n
  | none => bootstrapLastNumber st.orderNumbers

/-- Result of one `assignOrderNumber` call: the reserved integer, the
formatted string stamped onto the order, and the stream state after both the
transactional counter write and the stamping write. -/
structure AllocResult where
  number : Nat
  formatted : String
  state : StreamState
deriving DecidableEq, Repr

/-- `index.js` `assignOrderNumber`, with the transaction taken as atomic: read
`lastNumber` (bootstrapping when the counter is absent), write back
`next = lastNumber + 1`, then stamp `formatOrderNumber next` onto the order. -/
def assignOrderNumber (st : StreamState) : AllocResult :=
  let next := txLastNumber st + 1
  { number := next
    formatted := formatOrderNumber next
    state := { counter := some next, orderNumbers := formatOrderNumber next :: st.orderNumbers } }

/-- `n` serialized `assignOrderNumber` transactions in commit order, returning
the allocated integers (in commit order) and the final state. -/
def runAllocs : StreamState → Nat → List Nat × StreamState
  | st, 0 => ([], st)
  | st, n + 1 =>
    let r := assignOrderNumber st
    let rest := runAllocs r.state n
    (r.number :: rest.1, rest.2)

/-- The counter value a state stores (`0` when the document is absent). -/
def counterValue (st : StreamState) : Nat := st.counter.getD 0

/-- `index.js` `ensureOrderNumber`.  The `Bool` of the result records whether
the counter transaction ran (`false` on the idempotent short-circuit, which
performs no Firestore read or write at all). -/
def ensureOrderNumber (st : StreamState) (orderNumber : Option String) :
    String × StreamState × Bool :=
  if jsTruthy orderNumber then (orderNumber.getD "", st, false)
  else
    let r := assignOrderNumber st
    (r.formatted, r.state, true)

/-! ### Roles and the dispatch-notification callable (`sendDispatchEmail`) -/

/-- `index.js` `BOOTSTRAP_ADMINS`. -/
def BOOTSTRAP_ADMINS : List String :=
  ["bradsgbaker14@gmail.com", "admin@thecrookedfence.co.za", "stolschristopher60@gmail.com"]

/-- `index.js` `getRoleFromContext`: the `role` claim when truthy, else
`"admin"` for a bootstrap-admin email, else `null`. -/
def getRoleFromContext (authEmail : String) (claimRole : Option String) : Option String :=
  if jsTruthy claimRole then claimRole
  else if BOOTSTRAP_ADMINS.contains (jsToLower authEmail) then some "admin" else none

/-- The role test of `index.js` `requireStaff`. -/
def isStaffRole (role : Option String) : Bool :=
  role = some "admin" || role = some "super_admin" || role = some "worker"

/-- The order fields `sendDispatchEmail` consults. -/
structure DispatchOrder where
  email : String
  sendDate : String
  orderNumber : Option String
  trackingLink : String
deriving DecidableEq, Repr

/-- Outcome of the `sendDispatchEmail` callable.  The four error constructors
are the thrown `HttpsError`s (`permission-denied`, `invalid-argument`,
`not-found`, and the two `failed-precondition` cases: `missingEmail` for the
order-email guard, `configError` propagated from `sendEmail`); `ok rs` is the
successful return after the delivery call contacted `rs`. -/
inductive DispatchResult
  | permissionDenied
  | invalidArgument
  | notFound
  | missingEmail
  | configError
  | ok (dest : List String)
deriving DecidableEq, Repr

/-- Does the callable reject (throw) rather than attempt delivery? -/
def isDispatchRejection : DispatchResult → Bool
  | .ok _ => false
  | _ => true

/-- `index.js` `sendDispatchEmail` (exports.sendDispatchEmail): staff check,
argument validation, order lookup, order-email guard, then composition and one
`sendEmail` call.  `lookup c i` models `db.collection(c).doc(i).get()`; the
HTML composition does not influence the control flow and is elided. -/
def sendDispatchEmail (apiKey : Option String) (authEmail : String) (claimRole : Option String)
    (collectionName orderId : String) (lookup : String → String → Option DispatchOrder) :
    DispatchResult :=
  if !(isStaffRole (getRoleFromContext authEmail claimRole)) then .permissionDenied
  else
    let c := jsTrim collectionName
    if !(c = "eggOrders" || c = "livestockOrders") then .invalidArgument
    else
      let oid := jsTrim orderId
      if oid = "" then .invalidArgument
      else
        match lookup c oid with
        | none => .notFound
        | some order =>
          let email := jsTrim order.email
          if email = "" then .missingEmail
          else
            match sendEmail apiKey [email] with
            | .configError => .configError
            | .skipped => .ok []
            | .sent rs => .ok rs

/-! ### Status-change notifications (`sendOrderStatusEmails`, `emailOnStatusChange`) -/

/-- The keys of `index.js` `ORDER_STATUS_LABELS`: the closed status set. -/
def ORDER_STATUSES : List String :=
  ["pending", "waiting_list", "cancelled", "packed", "scheduled_dispatch",
   "shipped", "completed", "archived"]

/-- `index.js` `sendOrderStatusEmails`, reduced to the pair
(customer emails sent, admin emails sent).  A falsy or suppressed
(`archived` / `cancelled`) next status sends nothing; otherwise one customer
email when the order email is truthy and one admin email when the resolved
admin recipient list is non-empty. -/
def sendOrderStatusEmails (email nextStatus : String) (adminRecipients : List String) :
    Nat × Nat :=
  if nextStatus = "" || nextStatus = "archived" || nextStatus = "cancelled" then (0, 0)
  else ((if email ≠ "" then 1 else 0), (if adminRecipients ≠ [] then 1 else 0))

/-- `index.js` `emailOnStatusChange` trigger body: no-op when the status is
unchanged, else delegate to `sendOrderStatusEmails`. -/
def emailOnStatusChange (beforeStatus afterStatus email : String)
    (adminRecipients : List String) : Nat × Nat :=
  if beforeStatus = afterStatus then (0, 0)
  else sendOrderStatusEmails email afterStatus adminRecipients

/-! ### Threshold watcher (`stockThresholdAlert`) -/

/-- The stock record fields the watcher reads (raw values, see `toNumber`). -/
structure StockData where
  quantity : Option ℚ
  threshold : Option ℚ
deriving DecidableEq

/-- `index.js` `stockThresholdAlert` trigger body, reduced to whether the
alert branch fires.  (`!Number.isFinite(threshold)` is subsumed: `toNumber`
already maps non-finite values to `0`.  Delivery additionally requires a
non-empty admin recipient list; that and the email body are elided.) -/
def stockThresholdAlert (before after : Option StockData) : Bool :=
  match after with
  | none => false
  | some a =>
    let threshold := toNumber a.threshold
    if threshold ≤ 0 then false
    else
      let afterQty := toNumber a.quantity
      match before with
      | none => afterQty ≤ threshold
      | some b =>
        let beforeQty := toNumber b.quantity
        if beforeQty ≤ threshold then false
        else afterQty ≤ threshold

/-! ### Client-side allocation poller (`submitOrder` in the order form) -/

/-- The read/sleep loop of the order submission handler: `fuel` attempts
remain, `i` reads were already made; `read i` is the `orderNumber` the `i`-th
re-read observes (`""` for a missing field).  Returns the observed number (or
`none`) and the total number of reads performed. -/
def pollOrderNumber (read : Nat → String) : Nat → Nat → Option String × Nat
  | 0, i => (none, i)
  | fuel + 1, i =>
    if read i ≠ "" then (some (read i), i + 1)
    else pollOrderNumber read fuel (i + 1)

/-- The poller as the source runs it: `for (let i = 0; i < 5; i += 1)`. -/
def waitForNumber (read : Nat → String) : Option String × Nat :=
  pollOrderNumber read 5 0

/-- The success message the submission handler shows: the poller result is a
soft outcome, both branches reach `setSuccess`. -/
def submitSuccessMessage (n : Option String) : String :=
  match n with
  | some v =>
    "Order submitted! Your order number is " ++ v ++
      ". Please use it as your payment reference."
  | none => "Order submitted successfully! Thank you for your support."

/-- A concrete order carrying a customer email but an empty requested send
date. -/
def dispatchOrderNoSendDate : DispatchOrder :=
  { email := "customer@example.com", sendDate := "", orderNumber := some "#0001",
    trackingLink := "" }

/-- A one-order store exposing `dispatchOrderNoSendDate` as
`eggOrders/order1`. -/
def dispatchLookupNoSendDate : String → String → Option DispatchOrder :=
  fun c i => if c = "eggOrders" && i = "order1" then some dispatchOrderNoSendDate else none

/-! ## Theorems -/

/-- A formatted order number always starts with the marker character, so it is
never the empty string. -/
theorem formatOrderNumber_ne_empty (n : Nat) : formatOrderNumber n ≠ "" := by
  intro h
  have h2 : (formatOrderNumber n).data = [] := by rw [h]
  rw [formatOrderNumber, String.data_append] at h2
  have h3 : ("#" : String).data = ['#'] := rfl
  rw [h3] at h2
  exact absurd h2 (by simp)

/-- Claim C2: an order that already carries a non-empty `orderNumber` gets it
returned unchanged by `ensureOrderNumber`, with no counter transaction and no
state change; consequently a second allocation on a freshly numbered order
returns the same number again without touching the counter. -/
theorem allocation_idempotent :
    (∀ (st : StreamState) (s : String), s ≠ "" →
      ensureOrderNumber st (some s) = (s, st, false)) ∧
    (∀ st : StreamState,
      ensureOrderNumber ((ensureOrderNumber st none).2.1) (some (ensureOrderNumber st none).1) =
        ((ensureOrderNumber st none).1, (ensureOrderNumber st none).2.1, false)) := by
  constructor
  · intro st s hs
    simp [ensureOrderNumber, jsTruthy, hs]
  · intro st
    have h1 : ensureOrderNumber st none =
        ((assignOrderNumber st).formatted, (assignOrderNumber st).state, true) := by
      simp [ensureOrderNumber, jsTruthy]
    rw [h1]
    simp [ensureOrderNumber, jsTruthy, assignOrderNumber, formatOrderNumber_ne_empty]

/-- Witness for `allocation_idempotent` at a concrete state and number. -/
theorem allocation_idempotent_witness :
    ensureOrderNumber emptyStream (some "#0007") = ("#0007", emptyStream, false) :=
  allocation_idempotent.1 emptyStream "#0007" (by decide)

/-- Claim C4 counterexample: with an empty raw configured string the resolver
returns the empty list, not the (non-empty) fallback list. -/
theorem recipient_fallback_counterexample :
    getAdminRecipients "" ADMIN_EMAIL_EXCLUSIONS ADMIN_EMAIL_FALLBACKS = [] ∧
    ADMIN_EMAIL_FALLBACKS ≠ [] := by
  exact ⟨rfl, by decide⟩

/-- On a non-empty raw string the resolver reduces to: the filtered token
list when it is non-empty, else the fallback. -/
theorem getAdminRecipients_ne_empty (raw : String) (exclusions fallback : List String)
    (h : raw ≠ "") :
    getAdminRecipients raw exclusions fallback =
      (if ((jsSplitSeps raw).map jsTrim).filter (adminFilter exclusions) = []
       then fallback
       else ((jsSplitSeps raw).map jsTrim).filter (adminFilter exclusions)) := by
  rw [getAdminRecipients, if_neg h]
  show (if (((jsSplitSeps raw).map jsTrim).filter (adminFilter exclusions)).length > 0
        then ((jsSplitSeps raw).map jsTrim).filter (adminFilter exclusions)
        else fallback) = _
  by_cases hf : ((jsSplitSeps raw).map jsTrim).filter (adminFilter exclusions) = []
  · rw [if_pos hf, hf]
    simp
  · rw [if_neg hf, if_pos (List.length_pos.mpr hf)]

/-- Claim C4 (amended): the resolver splits the raw string on runs of
whitespace/comma/semicolon, trims, drops empties, and removes excluded
addresses case-insensitively; when the raw string is non-empty and the filtered
list is empty it returns the fallback verbatim, but an empty raw string
short-circuits to the empty list (not the fallback). -/
theorem recipient_resolver (raw : String) (exclusions fallback : List String) :
    (raw = "" → getAdminRecipients raw exclusions fallback = []) ∧
    (raw ≠ "" →
      (((jsSplitSeps raw).map jsTrim).filter (adminFilter exclusions) = [] →
        getAdminRecipients raw exclusions fallback = fallback) ∧
      (((jsSplitSeps raw).map jsTrim).filter (adminFilter exclusions) ≠ [] →
        getAdminRecipients raw exclusions fallback =
          ((jsSplitSeps raw).map jsTrim).filter (adminFilter exclusions))) ∧
    (∀ a ∈ getAdminRecipients raw exclusions fallback,
      a ∉ fallback → a ≠ "" ∧ jsToLower a ∉ exclusions) := by
  refine ⟨fun h => by simp [getAdminRecipients, h], fun h => ⟨fun hf => ?_, fun hf => ?_⟩, ?_⟩
  · rw [getAdminRecipients_ne_empty raw exclusions fallback h, if_pos hf]
  · rw [getAdminRecipients_ne_empty raw exclusions fallback h, if_neg hf]
  · intro a ha hfb
    by_cases h : raw = ""
    · simp [getAdminRecipients, h] at ha
    · rw [getAdminRecipients_ne_empty raw exclusions fallback h] at ha
      split at ha
      · exact absurd ha hfb
      · have hmem := List.of_mem_filter ha
        simp only [adminFilter, Bool.and_eq_true, bne_iff_ne, ne_eq, Bool.not_eq_true,
          decide_eq_true_eq] at hmem
        obtain ⟨h1, h2⟩ := hmem
        refine ⟨by simpa using h1, fun hc => ?_⟩
        have hnot : jsToLower a ∉ exclusions := by simpa using h2
        exact hnot hc

/-- Witness for `recipient_resolver`: an all-filtered raw string falls back,
and the spec's worked example resolves to the non-excluded address. -/
theorem recipient_resolver_witness :
    getAdminRecipients " ;, " ["x@y.z"] ADMIN_EMAIL_FALLBACKS = ADMIN_EMAIL_FALLBACKS ∧
    getAdminRecipients "a@x.com, B@X.com" ["b@x.com"] ADMIN_EMAIL_FALLBACKS = ["a@x.com"] := by
  constructor
  · exact ((recipient_resolver " ;, " ["x@y.z"] ADMIN_EMAIL_FALLBACKS).2.1
      (by decide)).1 (by decide)
  · exact (((recipient_resolver "a@x.com, B@X.com" ["b@x.com"]
      ADMIN_EMAIL_FALLBACKS).2.1 (by decide)).2 (by decide)).trans (by decide)

/-- Claim C5: the stock watcher fires exactly on the edge: the (finite)
threshold is positive, the after-quantity is at or below it, and either there
was no before state or the before-quantity was strictly above it; a write that
stays at-or-below fires nothing, a non-positive (or non-finite, mapped to `0`)
threshold disables alerting, and the sequence `10 (threshold 5) → 4 → 3` fires
exactly once. -/
theorem stock_threshold_edge :
    (∀ a : StockData, stockThresholdAlert none (some a) = true ↔
      0 < toNumber a.threshold ∧ toNumber a.quantity ≤ toNumber a.threshold) ∧
    (∀ b a : StockData, stockThresholdAlert (some b) (some a) = true ↔
      0 < toNumber a.threshold ∧ toNumber a.quantity ≤ toNumber a.threshold ∧
        toNumber a.threshold < toNumber b.quantity) ∧
    (∀ (before : Option StockData) (a : StockData),
      toNumber a.threshold ≤ 0 → stockThresholdAlert before (some a) = false) ∧
    (∀ b a : StockData, toNumber b.quantity ≤ toNumber a.threshold →
      stockThresholdAlert (some b) (some a) = false) ∧
    stockThresholdAlert (some ⟨some 10, some 5⟩) (some ⟨some 4, some 5⟩) = true ∧
    stockThresholdAlert (some ⟨some 4, some 5⟩) (some ⟨some 3, some 5⟩) = false := by
  refine ⟨fun a => ?_, fun b a => ?_, fun before a h => ?_, fun b a h => ?_, ?_, ?_⟩
  · show (if toNumber a.threshold ≤ 0 then false
        else decide (toNumber a.quantity ≤ toNumber a.threshold)) = true ↔ _
    by_cases hle : toNumber a.threshold ≤ 0
    · rw [if_pos hle]
      simp only [Bool.false_eq_true, false_iff, not_and]
      intro h1
      exact absurd h1 (not_lt.mpr hle)
    · rw [if_neg hle, decide_eq_true_eq]
      constructor
      · intro h2; exact ⟨lt_of_not_le hle, h2⟩
      · rintro ⟨-, h2⟩; exact h2
  · show (if toNumber a.threshold ≤ 0 then false
        else if toNumber b.quantity ≤ toNumber a.threshold then false
        else decide (toNumber a.quantity ≤ toNumber a.threshold)) = true ↔ _
    by_cases hle : toNumber a.threshold ≤ 0
    · rw [if_pos hle]
      simp only [Bool.false_eq_true, false_iff, not_and]
      intro h1
      exact absurd h1 (not_lt.mpr hle)
    · rw [if_neg hle]
      by_cases hble : toNumber b.quantity ≤ toNumber a.threshold
      · rw [if_pos hble]
        simp only [Bool.false_eq_true, false_iff, not_and]
        intro _ _ h3
        exact absurd h3 (not_lt.mpr hble)
      · rw [if_neg hble, decide_eq_true_eq]
        constructor
        · intro h2; exact ⟨lt_of_not_le hle, h2, lt_of_not_le hble⟩
        · rintro ⟨-, h2, -⟩; exact h2
  · cases before with
    | none =>
      show (if toNumber a.threshold ≤ 0 then false
          else decide (toNumber a.quantity ≤ toNumber a.threshold)) = false
      rw [if_pos h]
    | some b =>
      show (if toNumber a.threshold ≤ 0 then false
          else if toNumber b.quantity ≤ toNumber a.threshold then false
          else decide (toNumber a.quantity ≤ toNumber a.threshold)) = false
      rw [if_pos h]
  · show (if toNumber a.threshold ≤ 0 then false
        else if toNumber b.quantity ≤ toNumber a.threshold then false
        else decide (toNumber a.quantity ≤ toNumber a.threshold)) = false
    by_cases hle : toNumber a.threshold ≤ 0
    · rw [if_pos hle]
    · rw [if_neg hle, if_pos h]
  · norm_num [stockThresholdAlert, toNumber]
  · norm_num [stockThresholdAlert, toNumber]

/-- Witness for `stock_threshold_edge` at a concrete first-observation write. -/
theorem stock_threshold_edge_witness :
    stockThresholdAlert none (some ⟨some 2, some 5⟩) = true :=
  (stock_threshold_edge.1 ⟨some 2, some 5⟩).mpr (by norm_num [toNumber])

/-- Claim C6: status-change notifications happen only when the status actually
changed; transitions into `cancelled` or `archived` send nothing; any other
transition between statuses of the closed status set sends one customer email
when the order email is non-empty and one admin email when the resolved admin
recipient list is non-empty. -/
theorem status_change_suppression :
    ∀ (b a e : String) (r : List String),
      (b = a → emailOnStatusChange b a e r = (0, 0)) ∧
      (a = "cancelled" ∨ a = "archived" → emailOnStatusChange b a e r = (0, 0)) ∧
      (b ≠ a → a ∈ ORDER_STATUSES → a ≠ "cancelled" → a ≠ "archived" →
        emailOnStatusChange b a e r =
          ((if e ≠ "" then 1 else 0), (if r ≠ [] then 1 else 0))) := by
  intro b a e r
  refine ⟨fun h => by simp [emailOnStatusChange, h], fun h => ?_, fun hba hmem hc har => ?_⟩
  · by_cases hba : b = a
    · simp [emailOnStatusChange, hba]
    · rcases h with rfl | rfl <;>
        simp [emailOnStatusChange, sendOrderStatusEmails, hba]
  · have hne : a ≠ "" := by
      simp only [ORDER_STATUSES, List.mem_cons, List.not_mem_nil, or_false] at hmem
      rcases hmem with rfl | rfl | rfl | rfl | rfl | rfl | rfl | rfl <;> decide
    simp [emailOnStatusChange, sendOrderStatusEmails, hba, hne, hc, har]

/-- Witness for `status_change_suppression`: `pending → packed` sends both
emails, `pending → archived` sends none. -/
theorem status_change_suppression_witness :
    emailOnStatusChange "pending" "packed" "c@x.com" ["a@y.z"] = (1, 1) ∧
    emailOnStatusChange "pending" "archived" "c@x.com" ["a@y.z"] = (0, 0) := by
  constructor
  · exact ((status_change_suppression "pending" "packed" "c@x.com" ["a@y.z"]).2.2
      (by decide) (by decide) (by decide) (by decide)).trans (by decide)
  · exact (status_change_suppression "pending" "archived" "c@x.com" ["a@y.z"]).2.1
      (Or.inr rfl)

/-- Claim C8 counterexample: with no transport credential configured, a send
whose recipient list is empty after filtering throws the configuration error
instead of returning the no-op `null`. -/
theorem delivery_noop_counterexample :
    sendEmail none [""] = SendResult.configError ∧
    SendResult.configError ≠ SendResult.skipped := by
  exact ⟨rfl, by decide⟩

/-- Claim C8 (amended): provided a transport credential is configured, a send
whose recipient list is empty after dropping falsy entries returns the no-op
`null` — not an error, and the transport is never contacted. -/
theorem delivery_empty_noop (key : String) (dest : List String) :
    key ≠ "" → dest.filter (fun r => r ≠ "") = [] →
    sendEmail (some key) dest = SendResult.skipped ∧
    SendResult.skipped ≠ SendResult.configError ∧
    ∀ rs, SendResult.skipped ≠ SendResult.sent rs := by
  intro hk hf
  refine ⟨?_, by decide, fun rs => by simp⟩
  simp only [sendEmail, hf]
  simp [jsTruthy, hk]

/-- Witness for `delivery_empty_noop` with two falsy entries. -/
theorem delivery_empty_noop_witness :
    sendEmail (some "re_key") ["", ""] = SendResult.skipped :=
  (delivery_empty_noop "re_key" ["", ""] (by decide) (by decide)).1

/-- The poller never reads more than `i + fuel` times in total. -/
theorem pollOrderNumber_attempts_le (read : Nat → String) :
    ∀ fuel i, (pollOrderNumber read fuel i).2 ≤ i + fuel := by
  intro fuel
  induction fuel with
  | zero => intro i; simp [pollOrderNumber]
  | succ fuel ih =>
    intro i
    by_cases h : read i = ""
    · have := ih (i + 1)
      simp only [pollOrderNumber, h, ne_eq, not_true_eq_false, if_false]
      omega
    · simp only [pollOrderNumber, ne_eq, h, not_false_eq_true, if_true]
      omega

/-- When every remaining read comes back empty, the poller uses all its fuel
and returns `none`. -/
theorem pollOrderNumber_all_empty (read : Nat → String) :
    ∀ fuel i, (∀ j, j < fuel → read (i + j) = "") →
      pollOrderNumber read fuel i = (none, i + fuel) := by
  intro fuel
  induction fuel with
  | zero => intro i _; simp [pollOrderNumber]
  | succ fuel ih =>
    intro i h
    have h0 : read i = "" := by simpa using h 0 (by omega)
    have hrec := ih (i + 1) (fun j hj => by
      have h2 := h (j + 1) (by omega)
      have e : i + (j + 1) = i + 1 + j := by omega
      rwa [e] at h2)
    simp only [pollOrderNumber, h0, ne_eq, not_true_eq_false, if_false]
    rw [hrec]
    congr 1
    omega

/-- The poller returns the first non-empty read it observes. -/
theorem pollOrderNumber_first_hit (read : Nat → String) :
    ∀ fuel i k, k < fuel → (∀ j, j < k → read (i + j) = "") → read (i + k) ≠ "" →
      pollOrderNumber read fuel i = (some (read (i + k)), i + k + 1) := by
  intro fuel
  induction fuel with
  | zero => intro i k hk; exact absurd hk (Nat.not_lt_zero k)
  | succ fuel ih =>
    intro i k hk hempty hhit
    cases k with
    | zero =>
      have : read (i + 0) = read i := by rw [Nat.add_zero]
      rw [this] at hhit
      simp [pollOrderNumber, hhit]
    | succ k =>
      have h0 : read i = "" := by simpa using hempty 0 (by omega)
      have hrec := ih (i + 1) k (by omega)
        (fun j hj => by
          have h2 := hempty (j + 1) (by omega)
          have e : i + (j + 1) = i + 1 + j := by omega
          rwa [e] at h2)
        (by
          have : i + 1 + k = i + (k + 1) := by omega
          rw [this]; exact hhit)
      simp only [pollOrderNumber, h0, ne_eq, not_true_eq_false, if_false]
      rw [hrec]
      have : i + 1 + k = i + (k + 1) := by omega
      rw [this]

/-- Claim C9: the poller performs at most 5 reads and (being a total
function) terminates; it returns the order number as soon as a read observes a
non-empty one; when the number never appears it returns `none` after exactly 5
reads, and the submission handler still shows a success (degraded) message. -/
theorem poller_bounded_terminates (read : Nat → String) :
    (waitForNumber read).2 ≤ 5 ∧
    ((∀ i, i < 5 → read i = "") →
      waitForNumber read = (none, 5) ∧
      submitSuccessMessage (waitForNumber read).1 =
        "Order submitted successfully! Thank you for your support.") ∧
    (∀ k, k < 5 → (∀ j, j < k → read j = "") → read k ≠ "" →
      waitForNumber read = (some (read k), k + 1)) := by
  refine ⟨?_, fun h => ?_, fun k hk hempty hhit => ?_⟩
  · have := pollOrderNumber_attempts_le read 5 0
    unfold waitForNumber
    simpa using this
  · have h5 : waitForNumber read = (none, 5) := by
      have := pollOrderNumber_all_empty read 5 0 (fun j hj => by simpa using h j hj)
      unfold waitForNumber
      simpa using this
    refine ⟨h5, ?_⟩
    rw [h5]
    rfl
  · have := pollOrderNumber_first_hit read 5 0 k hk
      (fun j hj => by simpa using hempty j hj) (by simpa using hhit)
    unfold waitForNumber
    simpa using this

/-- Witness for `poller_bounded_terminates`: a record whose number never
appears exhausts all 5 attempts. -/
theorem poller_bounded_witness :
    waitForNumber (fun _ => "") = (none, 5) :=
  ((poller_bounded_terminates (fun _ => "")).2.1 (fun _ _ => rfl)).1

/-- `digitChar` of a digit has the expected code point. -/
theorem digitChar_toNat (d : Nat) (h : d < 10) : (digitChar d).toNat = 48 + d := by
  interval_cases d <;> decide

/-- `digitChar` of a digit is a digit character. -/
theorem isDigitChar_digitChar (d : Nat) (h : d < 10) : isDigitChar (digitChar d) = true := by
  interval_cases d <;> decide

/-- The fuelled digit extractor agrees with `Nat.digits 10` when the fuel
covers the input. -/
theorem decimalDigitsAux_eq_digits :
    ∀ fuel n, n ≤ fuel → decimalDigitsAux fuel n = Nat.digits 10 n := by
  intro fuel
  induction fuel with
  | zero =>
    intro n hn
    have h0 : n = 0 := Nat.le_zero.mp hn
    subst h0
    simp [decimalDigitsAux]
  | succ fuel ih =>
    intro n hn
    by_cases h0 : n = 0
    · subst h0
      simp [decimalDigitsAux]
    · show (if n = 0 then [] else n % 10 :: decimalDigitsAux fuel (n / 10)) = _
      rw [if_neg h0, Nat.digits_def' (by norm_num : (1 : ℕ) < 10) (Nat.pos_of_ne_zero h0)]
      congr 1
      have hdiv : n / 10 < n := Nat.div_lt_self (Nat.pos_of_ne_zero h0) (by norm_num)
      exact ih (n / 10) (by omega)

/-- `decimalDigits` is `Nat.digits 10`. -/
theorem decimalDigits_eq_digits (n : Nat) : decimalDigits n = Nat.digits 10 n :=
  decimalDigitsAux_eq_digits n n le_rfl

/-- Leading zero characters do not change the parsed value. -/
theorem natOfDigitChars_zeros_append (k : Nat) (cs : List Char) :
    natOfDigitChars (List.replicate k '0' ++ cs) = natOfDigitChars cs := by
  induction k with
  | zero => rfl
  | succ k ih =>
    rw [List.replicate_succ, List.cons_append]
    show (List.replicate k '0' ++ cs).foldl (fun n c => 10 * n + (c.toNat - 48))
        (10 * 0 + ('0'.toNat - 48)) = _
    have h0 : (10 * 0 + ('0'.toNat - 48)) = 0 := by decide
    rw [h0]
    exact ih

/-- Rendering little-endian digits most-significant-first and reading them
back yields `Nat.ofDigits 10`. -/
theorem natOfDigitChars_ofDigits (L : List Nat) (h : ∀ d ∈ L, d < 10) :
    natOfDigitChars ((L.reverse.map digitChar)) = Nat.ofDigits 10 L := by
  induction L with
  | nil => rfl
  | cons d L ih =>
    have hd : d < 10 := h d (List.mem_cons_self d L)
    have hL : ∀ x ∈ L, x < 10 := fun x hx => h x (List.mem_cons_of_mem d hx)
    rw [List.reverse_cons, List.map_append]
    show (List.map digitChar L.reverse ++ [digitChar d]).foldl
        (fun n c => 10 * n + (c.toNat - 48)) 0 = _
    rw [List.foldl_append]
    show 10 * ((L.reverse.map digitChar).foldl (fun n c => 10 * n + (c.toNat - 48)) 0) +
        ((digitChar d).toNat - 48) = _
    rw [digitChar_toNat d hd]
    have hih : (L.reverse.map digitChar).foldl (fun n c => 10 * n + (c.toNat - 48)) 0 =
        Nat.ofDigits 10 L := ih hL
    rw [hih, Nat.ofDigits_cons]
    omega

/-- Every character of a decimal rendering is a digit character. -/
theorem decimalString_all_digits (n : Nat) :
    ∀ c ∈ (decimalString n).data, isDigitChar c = true := by
  intro c hc
  rw [decimalString] at hc
  by_cases h0 : n = 0
  · rw [if_pos h0] at hc
    have hc2 : c ∈ ['0'] := hc
    simp only [List.mem_singleton] at hc2
    subst hc2
    decide
  · rw [if_neg h0] at hc
    have hc2 : c ∈ (decimalDigits n).reverse.map digitChar := hc
    rcases List.mem_map.mp hc2 with ⟨d, hd, rfl⟩
    have hd10 : d < 10 := by
      have hmem : d ∈ Nat.digits 10 n := by
        rw [← decimalDigits_eq_digits]
        exact List.mem_reverse.mp hd
      exact Nat.digits_lt_base (by norm_num) hmem
    exact isDigitChar_digitChar d hd10

/-- A decimal rendering is never the empty character list. -/
theorem decimalString_ne_nil (n : Nat) : (decimalString n).data ≠ [] := by
  rw [decimalString]
  by_cases h0 : n = 0
  · rw [if_pos h0]
    decide
  · rw [if_neg h0]
    show (decimalDigits n).reverse.map digitChar ≠ []
    simp only [ne_eq, List.map_eq_nil_iff, List.reverse_eq_nil_iff]
    rw [decimalDigits_eq_digits]
    exact Nat.digits_ne_nil_iff_ne_zero.mpr h0

/-- Reading back the decimal rendering of `n` gives `n`. -/
theorem natOfDigitChars_decimalString (n : Nat) :
    natOfDigitChars (decimalString n).data = n := by
  rw [decimalString]
  by_cases h0 : n = 0
  · rw [if_pos h0, h0]
    decide
  · rw [if_neg h0]
    show natOfDigitChars ((decimalDigits n).reverse.map digitChar) = n
    rw [decimalDigits_eq_digits, natOfDigitChars_ofDigits _
      (fun d hd => Nat.digits_lt_base (by norm_num) hd)]
    exact Nat.ofDigits_digits 10 n

/-- `takeWhile` keeps a list all of whose elements satisfy the predicate. -/
theorem takeWhile_all_digits :
    ∀ cs : List Char, (∀ c ∈ cs, isDigitChar c = true) → cs.takeWhile isDigitChar = cs := by
  intro cs h
  induction cs with
  | nil => rfl
  | cons c rest ih =>
    rw [List.takeWhile_cons, h c (List.mem_cons_self c rest)]
    rw [ih (fun x hx => h x (List.mem_cons_of_mem c hx))]
    simp

/-- The digit-run extractor skips the marker and captures the whole padded
digit block. -/
theorem firstDigitRun_hash (cs : List Char) (h : ∀ c ∈ cs, isDigitChar c = true)
    (hne : cs ≠ []) : firstDigitRun ('#' :: cs) = some cs := by
  have hhash : isDigitChar '#' = false := by decide
  rw [firstDigitRun, hhash]
  show firstDigitRun cs = some cs
  cases cs with
  | nil => exact absurd rfl hne
  | cons c rest =>
    rw [firstDigitRun, h c (List.mem_cons_self c rest)]
    show some (c :: rest.takeWhile isDigitChar) = _
    rw [takeWhile_all_digits rest (fun x hx => h x (List.mem_cons_of_mem c hx))]

/-- The character list of a formatted order number: the marker, the padding
zeros, then the decimal rendering. -/
theorem formatOrderNumber_data (n : Nat) :
    (formatOrderNumber n).data =
      '#' :: (List.replicate (ORDER_NUMBER_PAD - (decimalString n).length) '0' ++
        (decimalString n).data) := by
  rw [formatOrderNumber, String.data_append]
  rfl

/-- Parsing a formatted order number recovers the allocated integer. -/
theorem parse_format_roundtrip (n : Nat) : parseOrderNumber (formatOrderNumber n) = n := by
  rw [parseOrderNumber, if_neg (formatOrderNumber_ne_empty n), formatOrderNumber_data]
  have hdig : ∀ c ∈ List.replicate (ORDER_NUMBER_PAD - (decimalString n).length) '0' ++
      (decimalString n).data, isDigitChar c = true := by
    intro c hc
    rcases List.mem_append.mp hc with h | h
    · rw [List.eq_of_mem_replicate h]
      decide
    · exact decimalString_all_digits n c h
  have hne2 : List.replicate (ORDER_NUMBER_PAD - (decimalString n).length) '0' ++
      (decimalString n).data ≠ [] := by
    intro h
    exact decimalString_ne_nil n (List.append_eq_nil.mp h).2
  rw [firstDigitRun_hash _ hdig hne2]
  show natOfDigitChars (List.replicate (ORDER_NUMBER_PAD - (decimalString n).length) '0' ++
      (decimalString n).data) = n
  rw [natOfDigitChars_zeros_append]
  exact natOfDigitChars_decimalString n

/-- Claim C10: formatting then parsing is the identity on every natural
number — even beyond the pad width — so formatting is deterministic (it is a
function) and injective, and the legacy regex scan recovers exactly the
allocated integer. -/
theorem order_number_roundtrip :
    (∀ n : Nat, parseOrderNumber (formatOrderNumber n) = n) ∧
    Function.Injective formatOrderNumber ∧
    formatOrderNumber 123456 = "#123456" ∧
    parseOrderNumber "#123456" = 123456 := by
  refine ⟨parse_format_roundtrip, ?_, by decide, by decide⟩
  intro x y hxy
  have h2 := congrArg parseOrderNumber hxy
  rwa [parse_format_roundtrip, parse_format_roundtrip] at h2

/-- Witness for `order_number_roundtrip`, instantiating the injectivity
hypothesis at a width-overflowing concrete number. -/
theorem order_number_roundtrip_witness :
    parseOrderNumber (formatOrderNumber 10000) = 10000 ∧ (10000 : Nat) = 10000 := by
  refine ⟨order_number_roundtrip.1 10000, ?_⟩
  exact order_number_roundtrip.2.1 (rfl : formatOrderNumber 10000 = formatOrderNumber 10000)

/-- One transaction returns `lastNumber + 1`. -/
theorem assignOrderNumber_number (st : StreamState) :
    (assignOrderNumber st).number = txLastNumber st + 1 := rfl

/-- From a state whose counter document exists with value `k`, `n` serialized
transactions allocate exactly `k + 1, …, k + n` in commit order. -/
theorem runAllocs_counter_some :
    ∀ (n k : Nat) (recs : List String),
      (runAllocs ⟨some k, recs⟩ n).1 = (List.range n).map (fun i => k + 1 + i) := by
  intro n
  induction n with
  | zero => intro k recs; rfl
  | succ n ih =>
    intro k recs
    show (txLastNumber ⟨some k, recs⟩ + 1) ::
        (runAllocs (assignOrderNumber ⟨some k, recs⟩).state n).1 = _
    have hst : (assignOrderNumber ⟨some k, recs⟩).state =
        ⟨some (k + 1), formatOrderNumber (k + 1) :: recs⟩ := rfl
    rw [hst, ih (k + 1)]
    rw [List.range_succ_eq_map, List.map_cons, List.map_map]
    congr 1
    refine List.map_congr_left (fun i _ => ?_)
    show k + 1 + 1 + i = k + 1 + (i + 1)
    omega

/-- Allocated numbers from any state are strictly increasing in commit
order. -/
theorem runAllocs_pairwise (st : StreamState) (n : Nat) :
    List.Pairwise (· < ·) (runAllocs st n).1 := by
  cases n with
  | zero => exact List.Pairwise.nil
  | succ n =>
    show List.Pairwise (· < ·)
      ((txLastNumber st + 1) :: (runAllocs (assignOrderNumber st).state n).1)
    have hst : (assignOrderNumber st).state =
        ⟨some (txLastNumber st + 1), formatOrderNumber (txLastNumber st + 1) :: st.orderNumbers⟩ :=
      rfl
    rw [hst, runAllocs_counter_some n (txLastNumber st + 1) _]
    constructor
    · intro x hx
      rcases List.mem_map.mp hx with ⟨i, -, rfl⟩
      omega
    · exact (List.pairwise_lt_range n).map _ (fun a b hab => by omega)

/-- Claim C1: with each counter transaction atomic, every allocation returns
`lastNumber + 1` and writes it back; the counter value never decreases across
an allocation; numbers allocated in commit order are strictly increasing and
pairwise distinct from any starting state; and `n` allocations against an
empty counter (no counter document, no records) yield exactly `1, …, n`. -/
theorem allocator_spec :
    (∀ st : StreamState,
      (assignOrderNumber st).number = txLastNumber st + 1 ∧
      (assignOrderNumber st).state.counter = some ((assignOrderNumber st).number) ∧
      counterValue st ≤ counterValue ((assignOrderNumber st).state)) ∧
    (∀ (st : StreamState) (n : Nat), List.Pairwise (· < ·) (runAllocs st n).1) ∧
    (∀ (st : StreamState) (n : Nat), ((runAllocs st n).1).Nodup) ∧
    (∀ n : Nat, (runAllocs emptyStream n).1 = (List.range n).map (fun i => i + 1)) := by
  refine ⟨fun st => ⟨rfl, rfl, ?_⟩, runAllocs_pairwise,
    fun st n => (runAllocs_pairwise st n).imp Nat.ne_of_lt, fun n => ?_⟩
  · cases hst : st.counter with
    | none =>
      rw [counterValue, hst]
      simp
    | some k =>
      have hk : txLastNumber st = k := by simp [txLastNumber, hst]
      have hc : (assignOrderNumber st).state.counter = some (txLastNumber st + 1) := rfl
      rw [counterValue, counterValue, hst, hc, hk]
      simp
  · cases n with
    | zero => rfl
    | succ n =>
      show (txLastNumber emptyStream + 1) ::
          (runAllocs (assignOrderNumber emptyStream).state n).1 = _
      have h0 : txLastNumber emptyStream = 0 := rfl
      have hst : (assignOrderNumber emptyStream).state =
          ⟨some 1, [formatOrderNumber 1]⟩ := rfl
      rw [h0, hst, runAllocs_counter_some n 1 _]
      rw [List.range_succ_eq_map, List.map_cons, List.map_map]
      congr 1
      refine List.map_congr_left (fun i _ => ?_)
      show 1 + 1 + i = i + 1 + 1
      omega

/-- Claim C3 counterexample: an existing order with a non-empty email but an
empty requested send date is not rejected — `sendDispatchEmail` composes and
attempts delivery (successfully, here) instead of throwing a validation or
precondition error. -/
theorem dispatch_senddate_counterexample :
    dispatchOrderNoSendDate.sendDate = "" ∧
    sendDispatchEmail (some "re_key") "" (some "worker") "eggOrders" "order1"
        dispatchLookupNoSendDate = DispatchResult.ok ["customer@example.com"] ∧
    isDispatchRejection (DispatchResult.ok ["customer@example.com"]) = false := by
  refine ⟨rfl, ?_, rfl⟩
  decide

/-- Claim C3 (amended): for a staff caller with valid arguments,
`sendDispatchEmail` rejects with a not-found error when the order does not
exist and with a precondition error when the order email is blank; an empty
requested send date alone is not checked and does not reject — delivery
proceeds to the order's email. -/
theorem dispatch_preconditions (apiKey : Option String) (authEmail : String)
    (claimRole : Option String) (c oid : String)
    (lookup : String → String → Option DispatchOrder) :
    isStaffRole (getRoleFromContext authEmail claimRole) = true →
    (jsTrim c = "eggOrders" ∨ jsTrim c = "livestockOrders") →
    jsTrim oid ≠ "" →
    (lookup (jsTrim c) (jsTrim oid) = none →
      sendDispatchEmail apiKey authEmail claimRole c oid lookup = DispatchResult.notFound) ∧
    (∀ order : DispatchOrder, lookup (jsTrim c) (jsTrim oid) = some order →
      (jsTrim order.email = "" →
        sendDispatchEmail apiKey authEmail claimRole c oid lookup =
          DispatchResult.missingEmail ∧
        isDispatchRejection DispatchResult.missingEmail = true) ∧
      (jsTrim order.email ≠ "" → jsTruthy apiKey = true →
        sendDispatchEmail apiKey authEmail claimRole c oid lookup =
          DispatchResult.ok [jsTrim order.email])) := by
  intro hstaff hcol hoid
  have hc : (jsTrim c = "eggOrders" || jsTrim c = "livestockOrders") = true := by
    rcases hcol with h | h <;> simp [h]
  constructor
  · intro hnone
    simp [sendDispatchEmail, hstaff, hc, hoid, hnone]
  · intro order horder
    constructor
    · intro hmail
      refine ⟨?_, rfl⟩
      simp [sendDispatchEmail, hstaff, hc, hoid, horder, hmail]
    · intro hmail hkey
      have hsend : sendEmail apiKey [jsTrim order.email] =
          SendResult.sent [jsTrim order.email] := by
        rw [sendEmail, if_pos hkey]
        show (if ([jsTrim order.email].filter (fun r => r ≠ "")).length = 0
            then SendResult.skipped
            else SendResult.sent ([jsTrim order.email].filter (fun r => r ≠ ""))) = _
        rw [List.filter_cons]
        simp [hmail]
      simp [sendDispatchEmail, hstaff, hc, hoid, horder, hmail, hsend]

/-- Witness for `dispatch_preconditions`: a missing order rejects with the
not-found error. -/
theorem dispatch_preconditions_witness :
    sendDispatchEmail (some "re_key") "" (some "admin") "livestockOrders" "o9"
        (fun _ _ => none) = DispatchResult.notFound :=
  ((dispatch_preconditions (some "re_key") "" (some "admin") "livestockOrders" "o9"
      (fun _ _ => none)) (by decide) (Or.inr (by decide)) (by decide)).1 rfl

/-- Folding the digit-reading step from an arbitrary accumulator. -/
theorem natOfDigitChars_foldl :
    ∀ (cs : List Char) (a : Nat),
      cs.foldl (fun n c => 10 * n + (c.toNat - 48)) a =
        a * 10 ^ cs.length + natOfDigitChars cs := by
  intro cs
  induction cs with
  | nil => intro a; simp [natOfDigitChars]
  | cons c cs ih =>
    intro a
    show cs.foldl (fun n c => 10 * n + (c.toNat - 48)) (10 * a + (c.toNat - 48)) = _
    rw [ih (10 * a + (c.toNat - 48))]
    have h2 : natOfDigitChars (c :: cs) =
        (c.toNat - 48) * 10 ^ cs.length + natOfDigitChars cs := by
      show cs.foldl (fun n c => 10 * n + (c.toNat - 48)) (10 * 0 + (c.toNat - 48)) = _
      rw [ih (10 * 0 + (c.toNat - 48))]
      ring_nf
    rw [h2, List.length_cons]
    ring

/-- Peeling the leading digit character off the parsed value. -/
theorem natOfDigitChars_cons (c : Char) (cs : List Char) :
    natOfDigitChars (c :: cs) = (c.toNat - 48) * 10 ^ cs.length + natOfDigitChars cs := by
  show cs.foldl (fun n x => 10 * n + (x.toNat - 48)) (10 * 0 + (c.toNat - 48)) = _
  rw [natOfDigitChars_foldl]
  ring_nf

/-- A digit-character list reads to a value below `10 ^ length`. -/
theorem natOfDigitChars_lt :
    ∀ cs : List Char, (∀ c ∈ cs, isDigitChar c = true) →
      natOfDigitChars cs < 10 ^ cs.length := by
  intro cs
  induction cs with
  | nil => intro _; norm_num [natOfDigitChars]
  | cons c cs ih =>
    intro h
    have hc := h c (List.mem_cons_self c cs)
    have hv : c.toNat - 48 ≤ 9 := by
      simp only [isDigitChar, Bool.and_eq_true, decide_eq_true_eq] at hc
      omega
    have hcs := ih (fun x hx => h x (List.mem_cons_of_mem c hx))
    rw [natOfDigitChars_cons, List.length_cons, pow_succ]
    calc (c.toNat - 48) * 10 ^ cs.length + natOfDigitChars cs
        < (c.toNat - 48) * 10 ^ cs.length + 10 ^ cs.length := by omega
      _ = (c.toNat - 48 + 1) * 10 ^ cs.length := by ring
      _ ≤ 10 * 10 ^ cs.length := Nat.mul_le_mul_right _ (by omega)
      _ = 10 ^ cs.length * 10 := by ring

/-- On equal-length digit strings, lexicographic order implies value order. -/
theorem strLexLt_val_lt :
    ∀ cs es : List Char, cs.length = es.length →
      (∀ c ∈ cs, isDigitChar c = true) → (∀ c ∈ es, isDigitChar c = true) →
      strLexLt cs es = true → natOfDigitChars cs < natOfDigitChars es := by
  intro cs
  induction cs with
  | nil =>
    intro es hlen _ _ hlex
    cases es with
    | nil => cases hlex
    | cons e es => cases hlen
  | cons c cs ih =>
    intro es hlen hcs hes hlex
    cases es with
    | nil => cases hlen
    | cons e es =>
      have hlen2 : cs.length = es.length := by simpa using hlen
      have hc48 : 48 ≤ c.toNat ∧ c.toNat ≤ 57 := by
        simpa [isDigitChar] using hcs c (List.mem_cons_self c cs)
      have he48 : 48 ≤ e.toNat ∧ e.toNat ≤ 57 := by
        simpa [isDigitChar] using hes e (List.mem_cons_self e es)
      rw [natOfDigitChars_cons, natOfDigitChars_cons, ← hlen2]
      simp only [strLexLt] at hlex
      split at hlex
      · next hlt =>
        have hb : natOfDigitChars cs < 10 ^ cs.length :=
          natOfDigitChars_lt cs (fun x hx => hcs x (List.mem_cons_of_mem c hx))
        calc (c.toNat - 48) * 10 ^ cs.length + natOfDigitChars cs
            < (c.toNat - 48) * 10 ^ cs.length + 10 ^ cs.length := by omega
          _ = (c.toNat - 48 + 1) * 10 ^ cs.length := by ring
          _ ≤ (e.toNat - 48) * 10 ^ cs.length := Nat.mul_le_mul_right _ (by omega)
          _ ≤ (e.toNat - 48) * 10 ^ cs.length + natOfDigitChars es := Nat.le_add_right _ _
      · next hlt1 =>
        split at hlex
        · cases hlex
        · next hlt2 =>
          have heq : c.toNat = e.toNat := by omega
          have hrec := ih es hlen2 (fun x hx => hcs x (List.mem_cons_of_mem c hx))
            (fun x hx => hes x (List.mem_cons_of_mem e hx)) hlex
          rw [heq]
          exact Nat.add_lt_add_left hrec _

/-- Two equal-length strings neither of which is lexicographically below the
other read to the same value. -/
theorem strLexLt_both_false :
    ∀ cs es : List Char, cs.length = es.length →
      strLexLt cs es = false → strLexLt es cs = false →
      natOfDigitChars cs = natOfDigitChars es := by
  intro cs
  induction cs with
  | nil =>
    intro es hlen _ _
    cases es with
    | nil => rfl
    | cons e es => cases hlen
  | cons c cs ih =>
    intro es hlen h1 h2
    cases es with
    | nil => cases hlen
    | cons e es =>
      have hlen2 : cs.length = es.length := by simpa using hlen
      simp only [strLexLt] at h1 h2
      split at h1
      · cases h1
      · next hlt1 =>
        split at h1
        · next hlt2 =>
          rw [if_pos hlt2] at h2
          cases h2
        · next hlt2 =>
          have heq : c.toNat = e.toNat := by omega
          rw [if_neg hlt2, if_neg hlt1] at h2
          have hrec := ih es hlen2 h1 h2
          rw [natOfDigitChars_cons, natOfDigitChars_cons, heq, hlen2, hrec]

/-- On equal-length digit strings, lexicographic order is value order. -/
theorem strLexLt_iff_val_lt (cs es : List Char) (hlen : cs.length = es.length)
    (hcs : ∀ c ∈ cs, isDigitChar c = true) (hes : ∀ c ∈ es, isDigitChar c = true) :
    strLexLt cs es = true ↔ natOfDigitChars cs < natOfDigitChars es := by
  constructor
  · exact strLexLt_val_lt cs es hlen hcs hes
  · intro hv
    cases hle : strLexLt cs es with
    | true => rfl
    | false =>
      cases hle2 : strLexLt es cs with
      | true =>
        have := strLexLt_val_lt es cs hlen.symm hes hcs hle2
        omega
      | false =>
        have := strLexLt_both_false cs es hlen hle hle2
        omega

/-- The decimal rendering of a number within the pad range has at most
`ORDER_NUMBER_PAD` characters. -/
theorem decimalString_length_le (k : Nat) (h : k ≤ 9999) : (decimalString k).length ≤ 4 := by
  rw [decimalString]
  by_cases h0 : k = 0
  · rw [if_pos h0]
    decide
  · rw [if_neg h0]
    show ((decimalDigits k).reverse.map digitChar).length ≤ 4
    rw [List.length_map, List.length_reverse, decimalDigits_eq_digits]
    rw [Nat.digits_len 10 k (by norm_num) h0]
    have hpow : (10 : ℕ) ^ 4 = 10000 := by norm_num
    have hlog : Nat.log 10 k < 4 := Nat.log_lt_of_lt_pow h0 (by omega)
    omega

/-- The padded digit block of a formatted in-range number has width exactly
`ORDER_NUMBER_PAD`. -/
theorem formatPadded_length (k : Nat) (h : k ≤ 9999) :
    (List.replicate (ORDER_NUMBER_PAD - (decimalString k).length) '0' ++
      (decimalString k).data).length = 4 := by
  rw [List.length_append, List.length_replicate]
  have hle := decimalString_length_le k h
  have hdata : (decimalString k).data.length = (decimalString k).length := rfl
  rw [hdata, ORDER_NUMBER_PAD]
  omega

/-- Every character of the padded digit block is a digit. -/
theorem formatPadded_digits (k : Nat) :
    ∀ c ∈ List.replicate (ORDER_NUMBER_PAD - (decimalString k).length) '0' ++
      (decimalString k).data, isDigitChar c = true := by
  intro c hc
  rcases List.mem_append.mp hc with h | h
  · rw [List.eq_of_mem_replicate h]
    decide
  · exact decimalString_all_digits k c h

/-- The padded digit block reads back to the formatted number. -/
theorem formatPadded_val (k : Nat) :
    natOfDigitChars (List.replicate (ORDER_NUMBER_PAD - (decimalString k).length) '0' ++
      (decimalString k).data) = k := by
  rw [natOfDigitChars_zeros_append]
  exact natOfDigitChars_decimalString k

/-- Within the pad range, Firestore's string order on formatted numbers is the
numeric order. -/
theorem strLexLt_format_iff (k1 k2 : Nat) (h1 : k1 ≤ 9999) (h2 : k2 ≤ 9999) :
    strLexLt (formatOrderNumber k1).data (formatOrderNumber k2).data = true ↔ k1 < k2 := by
  rw [formatOrderNumber_data, formatOrderNumber_data]
  simp only [strLexLt]
  rw [if_neg (lt_irrefl _), if_neg (lt_irrefl _)]
  rw [strLexLt_iff_val_lt _ _
    (by rw [formatPadded_length k1 h1, formatPadded_length k2 h2])
    (formatPadded_digits k1) (formatPadded_digits k2)]
  rw [formatPadded_val, formatPadded_val]

/-- The bootstrap query's fold picks the format of the numeric maximum when
every number is within the pad range. -/
theorem foldl_lexMax_format (ks : List Nat) :
    ∀ k0 : Nat, k0 ≤ 9999 → (∀ k ∈ ks, k ≤ 9999) →
      (ks.map formatOrderNumber).foldl
        (fun acc t => if strLexLt acc.data t.data then t else acc) (formatOrderNumber k0) =
      formatOrderNumber (ks.foldl max k0) := by
  induction ks with
  | nil => intro k0 _ _; rfl
  | cons k ks ih =>
    intro k0 h0 hks
    have hk : k ≤ 9999 := hks k (List.mem_cons_self k ks)
    have hmax : max k0 k ≤ 9999 := max_le h0 hk
    rw [List.map_cons, List.foldl_cons, List.foldl_cons]
    have hstep : (if strLexLt (formatOrderNumber k0).data (formatOrderNumber k).data
        then formatOrderNumber k else formatOrderNumber k0) =
        formatOrderNumber (max k0 k) := by
      by_cases hlt : k0 < k
      · rw [if_pos ((strLexLt_format_iff k0 k h0 hk).mpr hlt),
          Nat.max_eq_right (le_of_lt hlt)]
      · have hb : ¬ strLexLt (formatOrderNumber k0).data (formatOrderNumber k).data = true :=
          fun hb => hlt ((strLexLt_format_iff k0 k h0 hk).mp hb)
        rw [if_neg hb, Nat.max_eq_left (not_lt.mp hlt)]
    rw [hstep]
    exact ih (max k0 k) hmax (fun x hx => hks x (List.mem_cons_of_mem k hx))

/-- Claim C7 counterexample: a stream holding the stamps `#9999` and `#10000`
with no counter document bootstraps from the lexicographically greatest string
`#9999`, so the next allocated number is `10000` — already assigned — and not
the numeric maximum plus one (`10001`) the claim requires. -/
theorem bootstrap_scan_counterexample :
    (assignOrderNumber ⟨none, ["#9999", "#10000"]⟩).number = 10000 ∧
    (["#9999", "#10000"].map parseOrderNumber).foldl max 0 = 10000 ∧
    (assignOrderNumber ⟨none, ["#9999", "#10000"]⟩).number ≠
      (["#9999", "#10000"].map parseOrderNumber).foldl max 0 + 1 := by
  refine ⟨?_, ?_, ?_⟩ <;> decide

/-- Claim C7 (amended): with no counter document the bootstrap value is the
regex-extracted number of the record whose `orderNumber` string is
lexicographically greatest (Firestore's `orderBy desc limit 1`), and the next
allocation is that value plus one; whenever every previously-assigned number
fits the pad width (all `≤ 9999`, equal stamp width) this coincides with the
claim: the next number is the numeric maximum of the parsed records plus
one. -/
theorem bootstrap_scan (k0 : Nat) (ks : List Nat) :
    k0 ≤ 9999 → (∀ k ∈ ks, k ≤ 9999) →
    (assignOrderNumber ⟨none, (k0 :: ks).map formatOrderNumber⟩).number =
      (k0 :: ks).foldl max 0 + 1 ∧
    ((k0 :: ks).map formatOrderNumber).map parseOrderNumber = k0 :: ks ∧
    (∀ records : List String,
      (assignOrderNumber ⟨none, records⟩).number = bootstrapLastNumber records + 1) := by
  intro h0 hks
  have hlat : latestOrderNumber ((k0 :: ks).map formatOrderNumber) =
      some (formatOrderNumber (ks.foldl max k0)) := by
    rw [List.map_cons, latestOrderNumber]
    rw [foldl_lexMax_format ks k0 h0 hks]
  have hboot : bootstrapLastNumber ((k0 :: ks).map formatOrderNumber) = ks.foldl max k0 := by
    simp only [bootstrapLastNumber, hlat]
    exact parse_format_roundtrip _
  refine ⟨?_, ?_, fun records => rfl⟩
  · have hnum : (assignOrderNumber ⟨none, (k0 :: ks).map formatOrderNumber⟩).number =
        bootstrapLastNumber ((k0 :: ks).map formatOrderNumber) + 1 := rfl
    rw [hnum, hboot, List.foldl_cons]
    have hz : max 0 k0 = k0 := by omega
    rw [hz]
  · rw [List.map_map]
    have hcongr : (k0 :: ks).map (parseOrderNumber ∘ formatOrderNumber) =
        (k0 :: ks).map id :=
      List.map_congr_left (fun k _ => parse_format_roundtrip k)
    rw [hcongr, List.map_id]

/-- Witness for `bootstrap_scan`: records `#0003` and `#0012` bootstrap to 12,
so the next number is 13. -/
theorem bootstrap_scan_witness :
    (assignOrderNumber ⟨none, [3, 12].map formatOrderNumber⟩).number = 13 :=
  (bootstrap_scan 3 [12] (by decide) (by decide)).1.trans (by decide)

end CrookedFence
